import Mathlib

/-!
Shallow embedding of the discount-rule engine of the Shopify-Discount-App
repository: the rule parsers (admin routes and the buy-2-get-free cart
extension), the per-line rule selector of the extension, and the
rule-store reconciliation performed by the create and edit admin actions.
JavaScript numbers are modelled as rationals extended with NaN and the two
infinities; untyped JavaScript values flowing into the parsers are
modelled by the inductive type JVal.
-/

/-- A JavaScript number: a finite value (modelled exactly as a rational),
NaN, or one of the two infinities. -/
inductive JSNum where
  | num (q : ℚ)
  | nan
  | posInf
  | negInf
deriving DecidableEq, Repr

/-- True exactly on finite numbers, as Number.isFinite. -/
def JSNum.isFinite : JSNum → Bool
  | .num _ => true
  | _ => false

/-- The finite value of a JavaScript number, when it has one. -/
def JSNum.toFinite? : JSNum → Option ℚ
  | .num q => some q
  | _ => none

/-- An untyped JavaScript value as seen by the parsers: undefined, null,
a boolean, a number, a string, an array, or an object given by its
key-value pairs (keys unique, as in a runtime JavaScript object). -/
inductive JVal where
  | jundefined
  | jnull
  | jbool (b : Bool)
  | jnum (n : JSNum)
  | jstr (s : String)
  | jarr (elems : List JVal)
  | jobj (fields : List (String × JVal))

/-- Whether the checks of the form not raw or typeof raw different from
object let the value through: true exactly for objects and arrays
(null is excluded by its falsiness). -/
def JVal.isObjectLike : JVal → Bool
  | .jobj _ => true
  | .jarr _ => true
  | _ => false

/-- Property access value.k on an untyped value: the field of an object
when present, undefined otherwise (in particular on arrays and
primitives, for the property names this code reads). -/
def JVal.get : JVal → String → JVal
  | .jobj fields, k =>
      match fields.find? (fun p => p.1 = k) with
      | some p => p.2
      | none => .jundefined
  | _, _ => .jundefined

/-- Characters treated as trimmable whitespace by the Number coercion
model (the fragment relevant to this repository). -/
def isJsSpace (c : Char) : Bool :=
  c = ' ' || c = '\t' || c = '\n' || c = '\r'

/-- Trim leading and trailing whitespace from a character list. -/
def trimChars (cs : List Char) : List Char :=
  ((cs.dropWhile isJsSpace).reverse.dropWhile isJsSpace).reverse

/-- Numeric value of a list of decimal digit characters, most significant
first. -/
def digitsToNat (cs : List Char) : ℕ :=
  cs.foldl (fun n c => 10 * n + (c.toNat - 48)) 0

/-- Parse an unsigned decimal literal: digits, optionally followed by a
dot and further digits, or a dot followed by digits. Anything else is
not a decimal literal. -/
def parseDecChars (cs : List Char) : Option ℚ :=
  let intPart := cs.takeWhile Char.isDigit
  let rest := cs.dropWhile Char.isDigit
  match rest with
  | [] =>
      if intPart = [] then none
      else some (digitsToNat intPart : ℚ)
  | '.' :: frac =>
      if frac.all Char.isDigit && !(intPart = [] && frac = []) then
        some ((digitsToNat intPart : ℚ) +
          (digitsToNat frac : ℚ) / ((10 : ℚ) ^ frac.length))
      else none
  | _ => none

/-- Model of the JavaScript coercion Number(s) on strings, covering the
fragment this repository exercises: whitespace is trimmed, the empty
string coerces to 0, signed decimal literals and the Infinity spellings
are recognised, and every other form is NaN (the model maps hexadecimal
and exponent notation to NaN as well). -/
def jsNumber (s : String) : JSNum :=
  let cs := trimChars s.data
  match cs with
  | [] => .num 0
  | _ =>
    if cs = "Infinity".data || cs = "+Infinity".data then .posInf
    else if cs = "-Infinity".data then .negInf
    else
      match cs with
      | '+' :: body =>
          match parseDecChars body with
          | some q => .num q
          | none => .nan
      | '-' :: body =>
          match parseDecChars body with
          | some q => .num (-q)
          | none => .nan
      | body =>
          match parseDecChars body with
          | some q => .num q
          | none => .nan

/-- The coercion both parsers apply to the percentOff and minQty fields:
a number is used as is, a string goes through Number(), and any other
type yields NaN. -/
def coerceNum (v : JVal) : JSNum :=
  match v with
  | .jnum n => n
  | .jstr s => jsNumber s
  | _ => .nan

/-- The filter applied to a products array by both parsers: keep exactly
the entries that are non-empty strings. -/
def stringEntries (l : List JVal) : List String :=
  l.filterMap (fun v =>
    match v with
    | .jstr s => if s.length > 0 then some s else none
    | _ => none)

namespace Ext

/-- The validated rule type of the cart extension
(cart_lines_discounts_generate_run.ts). -/
structure DiscountRule where
  percentOff : ℚ
  products : List String
  minQty : ℚ
deriving DecidableEq, Repr

/-- parseRule of the cart extension: reject non-objects; coerce
percentOff and reject it unless finite and within 1 to 80 inclusive;
require products to be an array, keep its non-empty string entries and
reject when none remain; coerce minQty and reject it unless finite and
at least 2. -/
def parseRule (raw : JVal) : Option DiscountRule :=
  if !raw.isObjectLike then none
  else
    match (coerceNum (raw.get "percentOff")).toFinite? with
    | none => none
    | some percentOff =>
      if percentOff < 1 || 80 < percentOff then none
      else
        match raw.get "products" with
        | .jarr productsValue =>
          let products := stringEntries productsValue
          if products = [] then none
          else
            match (coerceNum (raw.get "minQty")).toFinite? with
            | none => none
            | some minQty =>
              if minQty < 2 then none
              else some ⟨percentOff, products, minQty⟩
        | _ => none

/-- Rule-set parsing shared shape (the body of parseDiscountRules after
the metafield value is extracted): decode a string input with the
ambient JSON decoder (a parameter, modelling the JSON.parse builtin;
decode failure yields the empty list), reject non-objects, use the rules
field when it is an array, and otherwise fall back to the legacy
single-rule shape. -/
def parseRulesRaw (jsonParse : String → Option JVal) (raw : JVal) :
    List DiscountRule :=
  let decoded : Option JVal :=
    match raw with
    | .jstr s => jsonParse s
    | v => some v
  match decoded with
  | none => []
  | some v =>
    if !v.isObjectLike then []
    else
      match v.get "rules" with
      | .jarr rulesValue => rulesValue.filterMap parseRule
      | _ =>
        match parseRule v with
        | some r => [r]
        | none => []

/-- Merchandise of a cart line: either a product variant carrying a
product identifier, or merchandise without a product field. -/
inductive Merchandise where
  | product (id : String)
  | other
deriving DecidableEq, Repr

/-- A cart line as read by the extension: line identifier, quantity and
merchandise. -/
structure CartLine where
  id : String
  quantity : ℚ
  merchandise : Merchandise
deriving DecidableEq, Repr

/-- The product identifier of a line, when its merchandise has one. -/
def CartLine.productId (l : CartLine) : Option String :=
  match l.merchandise with
  | .product pid => some pid
  | .other => none

/-- The cart input the extension reads: the shop metafield JSON value
(jundefined when the optional chain finds nothing) and the cart lines. -/
structure CartInput where
  metafieldJsonValue : JVal
  lines : List CartLine

/-- parseDiscountRules of the extension: extract the metafield value and
parse it as a rule set. -/
def parseDiscountRules (jsonParse : String → Option JVal)
    (input : CartInput) : List DiscountRule :=
  parseRulesRaw jsonParse input.metafieldJsonValue

/-- The per-line loop body of cartLinesDiscountsGenerateRun: fold over
the rules, skipping rules whose minQty exceeds the line quantity or
whose products do not contain the line product, and keeping the largest
percentOff seen (starting from 0). -/
def bestPercentFor (rules : List DiscountRule) (pid : String) (qty : ℚ) : ℚ :=
  rules.foldl
    (fun bestPercent r =>
      if qty < r.minQty then bestPercent
      else if !(r.products.contains pid) then bestPercent
      else if bestPercent < r.percentOff then r.percentOff
      else bestPercent)
    0

/-- Insertion-order map update, as Map.set: replace the value of an
existing key, otherwise append the pair. -/
def mapSet (m : List (String × ℚ)) (k : String) (v : ℚ) :
    List (String × ℚ) :=
  if m.any (fun p => p.1 = k) then
    m.map (fun p => if p.1 = k then (k, v) else p)
  else m ++ [(k, v)]

/-- Map lookup, as Map.get. -/
def mapGet? (m : List (String × ℚ)) (k : String) : Option ℚ :=
  match m.find? (fun p => p.1 = k) with
  | some p => some p.2
  | none => none

/-- The linePercentMap populated by the filter pass of
cartLinesDiscountsGenerateRun: one entry per line with product
merchandise whose best percent is non-zero. -/
def linePercentMap (rules : List DiscountRule) (lines : List CartLine) :
    List (String × ℚ) :=
  lines.foldl
    (fun m line =>
      match line.productId with
      | none => m
      | some pid =>
        let best := bestPercentFor rules pid line.quantity
        if best = 0 then m else mapSet m line.id best)
    []

/-- The filter predicate of the candidate pass: the line has product
merchandise and some rule gives it a non-zero best percent. -/
def eligibleLine (rules : List DiscountRule) (line : CartLine) : Bool :=
  match line.productId with
  | none => false
  | some pid => !(bestPercentFor rules pid line.quantity = 0)

/-- One emitted candidate: the target cart line and the percentage
value. -/
structure Candidate where
  lineId : String
  percentage : ℚ
deriving DecidableEq, Repr

/-- The candidates computation of cartLinesDiscountsGenerateRun: filter
the lines (populating linePercentMap as a side effect of the same pass),
then map each kept line to a candidate reading the map (with 0 as the
fallback of the map lookup). -/
def selectDiscounts (rules : List DiscountRule) (lines : List CartLine) :
    List Candidate :=
  (lines.filter (eligibleLine rules)).map
    (fun l =>
      ⟨l.id, match mapGet? (linePercentMap rules lines) l.id with
             | some v => v
             | none => 0⟩)

/-- The selection strategy constant used by the extension. -/
inductive SelectionStrategy where
  | all
deriving DecidableEq, Repr

/-- The single operation shape the extension emits. -/
structure Operation where
  selectionStrategy : SelectionStrategy
  candidates : List Candidate
deriving DecidableEq, Repr

/-- The result of the extension entry point. -/
structure GenerateRunResult where
  operations : List Operation
deriving DecidableEq, Repr

/-- cartLinesDiscountsGenerateRun: parse the rules, return no operations
when none parse or no candidate line exists, and otherwise one
productDiscountsAdd operation carrying all candidates. -/
def cartLinesDiscountsGenerateRun (jsonParse : String → Option JVal)
    (input : CartInput) : GenerateRunResult :=
  let rules := parseDiscountRules jsonParse input
  if rules = [] then ⟨[]⟩
  else
    let candidates := selectDiscounts rules input.lines
    if candidates = [] then ⟨[]⟩
    else ⟨[⟨.all, candidates⟩]⟩

end Ext

namespace Admin

/-- The rule type of the admin discount routes: as the extension rule,
plus an optional external discount identifier. -/
structure DiscountRule where
  discountId : Option String
  percentOff : ℚ
  products : List String
  minQty : ℚ
deriving DecidableEq, Repr

/-- parseRule of the admin create and edit routes: reject non-objects;
coerce percentOff and reject it unless finite (no range bound here);
require products to be an array and keep its non-empty string entries
(an empty remainder is accepted); coerce minQty and reject it unless
finite and at least 2; pass discountId through when it is a string. -/
def parseRule (raw : JVal) : Option DiscountRule :=
  if !raw.isObjectLike then none
  else
    match (coerceNum (raw.get "percentOff")).toFinite? with
    | none => none
    | some percentOff =>
      match raw.get "products" with
      | .jarr rawProducts =>
        let products := stringEntries rawProducts
        match (coerceNum (raw.get "minQty")).toFinite? with
        | none => none
        | some minQty =>
          if minQty < 2 then none
          else
            let discountId : Option String :=
              match raw.get "discountId" with
              | .jstr s => some s
              | _ => none
            some ⟨discountId, percentOff, products, minQty⟩
      | _ => none

/-- parseRules of the admin routes: decode a string input with the
ambient JSON decoder (a parameter modelling the JSON.parse builtin;
decode failure yields the empty list), reject non-objects, use the rules
field when it is an array, and otherwise fall back to the legacy
single-rule shape. -/
def parseRules (jsonParse : String → Option JVal) (raw : JVal) :
    List DiscountRule :=
  let decoded : Option JVal :=
    match raw with
    | .jstr s => jsonParse s
    | v => some v
  match decoded with
  | none => []
  | some v =>
    if !v.isObjectLike then []
    else
      match v.get "rules" with
      | .jarr rulesValue => rulesValue.filterMap parseRule
      | _ =>
        match parseRule v with
        | some r => [r]
        | none => []

/-- The filter predicate of the reconciliation in the create and edit
actions: keep a rule when its discountId is falsy (absent or the empty
string) or differs from the target identifier. In the edit action the
target is discountNodeId when defined and updateId otherwise, which is
the single target value compared against here. -/
def keepRule (target : Option String) (r : DiscountRule) : Bool :=
  match r.discountId with
  | none => true
  | some rid =>
    if rid = "" then true
    else
      match target with
      | none => true
      | some t => !(rid = t)

/-- The reconciliation performed by both admin actions: filter the
existing rules with keepRule against the upserted discountId, then
append the upserted rule at the end. -/
def reconcile (existing : List DiscountRule) (upserted : DiscountRule) :
    List DiscountRule :=
  existing.filter (keepRule upserted.discountId) ++ [upserted]

end Admin

section ReconcileProofs

/-- Pointwise description of keepRule when the target identifier is a
non-empty string: a rule is kept exactly when its discountId is not that
identifier. -/
lemma keepRule_eq_of_ne_empty (s : String) (hs : s ≠ "")
    (r : Admin.DiscountRule) :
    Admin.keepRule (some s) r = !(r.discountId = some s) := by
  unfold Admin.keepRule
  cases h : r.discountId with
  | none => simp
  | some rid =>
    by_cases hrid : rid = ""
    · subst hrid
      simp [Ne.symm hs]
    · simp [hrid]

/-- Counting a predicate and its negation covers the whole list. -/
lemma countP_add_countP_not {α : Type} (l : List α) (p : α → Bool) :
    l.countP p + l.countP (fun a => !p a) = l.length := by
  induction l with
  | nil => rfl
  | cons a l ih =>
    by_cases h : p a
    · simp [List.countP_cons, h, ← ih]
      omega
    · simp only [Bool.not_eq_true] at h
      simp [List.countP_cons, h, ← ih]
      omega

end ReconcileProofs

/-- C2: for an upserted rule carrying a non-empty discountId,
reconciliation filters out exactly the existing rules with that same
discountId and appends the upserted rule; with exactly one match the
length is preserved, and with no match the length grows by one. -/
theorem c2_reconcile_replaces_amended
    (existing : List Admin.DiscountRule) (upserted : Admin.DiscountRule)
    (s : String) (hid : upserted.discountId = some s) (hs : s ≠ "") :
    Admin.reconcile existing upserted =
      existing.filter (fun r => !(r.discountId = some s)) ++ [upserted] ∧
    (existing.countP (fun r => r.discountId = some s) = 1 →
      (Admin.reconcile existing upserted).length = existing.length) ∧
    ((∀ r ∈ existing, r.discountId ≠ some s) →
      (Admin.reconcile existing upserted).length = existing.length + 1) := by
  have hfilter : existing.filter (Admin.keepRule upserted.discountId) =
      existing.filter (fun r => !(r.discountId = some s)) := by
    apply List.filter_congr
    intro r _
    rw [hid]
    exact keepRule_eq_of_ne_empty s hs r
  refine ⟨by rw [Admin.reconcile, hfilter], ?_, ?_⟩
  · intro hone
    have hcount := countP_add_countP_not existing
      (fun r => (r.discountId = some s : Bool))
    have hlen : (existing.filter (fun r => !(r.discountId = some s))).length =
        existing.countP (fun r => !(r.discountId = some s)) :=
      (List.countP_eq_length_filter _ _).symm
    have hpos : 0 < existing.length := by
      have : 0 < existing.countP (fun r => (r.discountId = some s : Bool)) := by
        omega
      obtain ⟨a, ha, _⟩ := List.countP_pos_iff.mp this
      exact List.length_pos.mpr (List.ne_nil_of_mem ha)
    rw [Admin.reconcile, hfilter]
    simp only [List.length_append, List.length_singleton, hlen]
    omega
  · intro hnone
    have : existing.filter (fun r => !(r.discountId = some s)) = existing := by
      apply List.filter_eq_self.mpr
      intro r hr
      simpa using hnone r hr
    rw [Admin.reconcile, hfilter, this]
    simp

/-- Witness for C2 at a concrete input: replacing the rule with
identifier A in a two-rule store keeps the length at two. -/
theorem c2_witness :
    (Admin.reconcile
      [⟨some "A", 10, ["P1"], 2⟩, ⟨none, 20, ["P2"], 3⟩]
      ⟨some "A", 30, ["P3"], 2⟩).length = 2 := by
  have h := c2_reconcile_replaces_amended
    [⟨some "A", 10, ["P1"], 2⟩, ⟨none, 20, ["P2"], 3⟩]
    ⟨some "A", 30, ["P3"], 2⟩ "A" rfl (by decide)
  exact h.2.1 (by decide)

/-- Counterexample for C2 as stated: an upserted rule whose discountId
is the empty string equals the discountId of exactly one existing rule,
yet that rule is kept (the empty string is falsy), so the result is
longer than the input rather than of the same length. -/
theorem c2_counterexample :
    (([⟨some "", 10, ["P1"], 2⟩] : List Admin.DiscountRule).countP
      (fun r => r.discountId = some "") = 1) ∧
    (Admin.reconcile [⟨some "", 10, ["P1"], 2⟩]
      ⟨some "", 25, ["P2"], 2⟩).length = 2 := by
  constructor
  · decide
  · decide

/-- C3: reconciliation keeps every existing rule whose discountId
differs from the upserted one (including every rule without a
discountId) with unchanged field values and in their original relative
order: those rules form a sublist of the result, and each of them is a
member of the result. -/
theorem c3_reconcile_preserves_others
    (existing : List Admin.DiscountRule) (upserted : Admin.DiscountRule) :
    List.Sublist
      (existing.filter (fun r => !(r.discountId = upserted.discountId)))
      (Admin.reconcile existing upserted) ∧
    (∀ r ∈ existing, r.discountId ≠ upserted.discountId →
      r ∈ Admin.reconcile existing upserted) := by
  have hmono : ∀ r : Admin.DiscountRule,
      (!(r.discountId = upserted.discountId)) = true →
      Admin.keepRule upserted.discountId r = true := by
    intro r h
    simp only [Bool.not_eq_eq_eq_not, Bool.not_true, decide_eq_false_iff_not] at h
    unfold Admin.keepRule
    cases hr : r.discountId with
    | none => rfl
    | some rid =>
      by_cases hrid : rid = ""
      · simp [hrid]
      · cases ht : upserted.discountId with
        | none => simp [hrid]
        | some t =>
          have : rid ≠ t := by
            intro hrt
            exact h (by rw [hr, ht, hrt])
          simp [hrid, this]
  have hsub : List.Sublist
      (existing.filter (fun r => !(r.discountId = upserted.discountId)))
      (existing.filter (Admin.keepRule upserted.discountId)) :=
    List.monotone_filter_right existing hmono
  have happ : List.Sublist
      (existing.filter (Admin.keepRule upserted.discountId))
      (Admin.reconcile existing upserted) := by
    unfold Admin.reconcile
    exact List.sublist_append_left _ _
  refine ⟨hsub.trans happ, ?_⟩
  intro r hr hne
  have : r ∈ existing.filter (fun x => !(x.discountId = upserted.discountId)) := by
    rw [List.mem_filter]
    exact ⟨hr, by simpa using hne⟩
  exact (hsub.trans happ).subset this

/-- Witness for C3 at a concrete input: the rule for discount B survives
an upsert of discount A unchanged and stays in front of the appended
rule. -/
theorem c3_witness :
    List.Sublist [(⟨some "B", 20, ["P2"], 3⟩ : Admin.DiscountRule)]
      (Admin.reconcile [⟨some "B", 20, ["P2"], 3⟩, ⟨some "A", 10, ["P1"], 2⟩]
        ⟨some "A", 30, ["P3"], 2⟩) ∧
    (⟨some "B", 20, ["P2"], 3⟩ : Admin.DiscountRule) ∈
      Admin.reconcile [⟨some "B", 20, ["P2"], 3⟩, ⟨some "A", 10, ["P1"], 2⟩]
        ⟨some "A", 30, ["P3"], 2⟩ := by
  have h := c3_reconcile_preserves_others
    [⟨some "B", 20, ["P2"], 3⟩, ⟨some "A", 10, ["P1"], 2⟩]
    ⟨some "A", 30, ["P3"], 2⟩
  exact ⟨by simpa using h.1, h.2 ⟨some "B", 20, ["P2"], 3⟩ (by decide) (by decide)⟩

/-- C4 (amended): reconciliation is idempotent whenever the upserted
rule carries a non-empty discountId. -/
theorem c4_reconcile_idempotent_amended
    (existing : List Admin.DiscountRule) (upserted : Admin.DiscountRule)
    (s : String) (hid : upserted.discountId = some s) (hs : s ≠ "") :
    Admin.reconcile (Admin.reconcile existing upserted) upserted =
      Admin.reconcile existing upserted := by
  have hkeepu : Admin.keepRule upserted.discountId upserted = false := by
    unfold Admin.keepRule
    rw [hid]
    simp [hs]
  unfold Admin.reconcile
  rw [List.filter_append, List.filter_filter]
  simp [hkeepu, List.filter]

/-- Witness for C4 at a concrete input: upserting the rule for discount
A twice over a store holding discounts A and B equals upserting it
once. -/
theorem c4_witness :
    Admin.reconcile
      (Admin.reconcile [⟨some "A", 10, ["P1"], 2⟩, ⟨some "B", 20, ["P2"], 3⟩]
        ⟨some "A", 30, ["P3"], 2⟩)
      ⟨some "A", 30, ["P3"], 2⟩ =
    Admin.reconcile [⟨some "A", 10, ["P1"], 2⟩, ⟨some "B", 20, ["P2"], 3⟩]
      ⟨some "A", 30, ["P3"], 2⟩ :=
  c4_reconcile_idempotent_amended
    [⟨some "A", 10, ["P1"], 2⟩, ⟨some "B", 20, ["P2"], 3⟩]
    ⟨some "A", 30, ["P3"], 2⟩ "A" rfl (by decide)

/-- Counterexample for C4 as stated: upserting a rule without a
discountId is not idempotent, since nothing can match and the rule is
appended again on the second application. -/
theorem c4_counterexample :
    Admin.reconcile (Admin.reconcile [] ⟨none, 10, ["P1"], 2⟩)
        ⟨none, 10, ["P1"], 2⟩ ≠
      Admin.reconcile [] ⟨none, 10, ["P1"], 2⟩ := by
  decide

/-- The decoding step both rule-set parsers start with: a string input
goes through the ambient JSON decoder, any other value is used as is. -/
def decodeStep (jsonParse : String → Option JVal) (raw : JVal) :
    Option JVal :=
  match raw with
  | .jstr s => jsonParse s
  | v => some v

/-- The admin rule-set parser factors through the decoding step. -/
lemma admin_parseRules_decoded (jsonParse : String → Option JVal)
    (raw : JVal) :
    Admin.parseRules jsonParse raw =
      match decodeStep jsonParse raw with
      | none => []
      | some v =>
        if !v.isObjectLike then []
        else
          match v.get "rules" with
          | .jarr rulesValue => rulesValue.filterMap Admin.parseRule
          | _ =>
            match Admin.parseRule v with
            | some r => [r]
            | none => [] := by
  cases raw <;> rfl

/-- The extension rule-set parser factors through the decoding step. -/
lemma ext_parseRules_decoded (jsonParse : String → Option JVal)
    (raw : JVal) :
    Ext.parseRulesRaw jsonParse raw =
      match decodeStep jsonParse raw with
      | none => []
      | some v =>
        if !v.isObjectLike then []
        else
          match v.get "rules" with
          | .jarr rulesValue => rulesValue.filterMap Ext.parseRule
          | _ =>
            match Ext.parseRule v with
            | some r => [r]
            | none => [] := by
  cases raw <;> rfl

/-- C5: both rule-set parsers are total functions into rule sequences,
and they return the empty sequence when the text input does not decode,
when the decoded value is not object-like, and when an object-like value
has no rules array and fails the legacy single-rule validation. -/
theorem c5_parse_total_empty_on_malformed
    (jsonParse : String → Option JVal) (raw : JVal) :
    (∃ rules, Admin.parseRules jsonParse raw = rules) ∧
    (∃ rules, Ext.parseRulesRaw jsonParse raw = rules) ∧
    (decodeStep jsonParse raw = none →
      Admin.parseRules jsonParse raw = [] ∧
      Ext.parseRulesRaw jsonParse raw = []) ∧
    (∀ v, decodeStep jsonParse raw = some v → v.isObjectLike = false →
      Admin.parseRules jsonParse raw = [] ∧
      Ext.parseRulesRaw jsonParse raw = []) ∧
    (∀ v, decodeStep jsonParse raw = some v →
      (∀ l, v.get "rules" ≠ .jarr l) →
      (Admin.parseRule v = none → Admin.parseRules jsonParse raw = []) ∧
      (Ext.parseRule v = none → Ext.parseRulesRaw jsonParse raw = [])) := by
  rw [admin_parseRules_decoded, ext_parseRules_decoded]
  refine ⟨⟨_, rfl⟩, ⟨_, rfl⟩, ?_, ?_, ?_⟩
  · intro hdec
    simp [hdec]
  · intro v hdec hobj
    simp [hdec, hobj]
  · intro v hdec hrules
    rw [hdec]
    constructor
    · intro hnone
      cases hv : JVal.isObjectLike v <;> simp only [hv, Bool.not_true,
        Bool.not_false, if_true, if_false]
      cases hr : v.get "rules" <;> simp_all
    · intro hnone
      cases hv : JVal.isObjectLike v <;> simp only [hv, Bool.not_true,
        Bool.not_false, if_true, if_false]
      cases hr : v.get "rules" <;> simp_all

/-- Witness for C5 at concrete inputs: a decoder that fails on the given
text yields the empty rule sequence, and so does a numeric input. -/
theorem c5_witness :
    Admin.parseRules (fun _ => none) (.jstr "not json") = [] ∧
    Ext.parseRulesRaw (fun _ => none) (.jstr "not json") = [] ∧
    Admin.parseRules (fun _ => none) (.jnum (.num 3)) = [] ∧
    Ext.parseRulesRaw (fun _ => none) (.jnum (.num 3)) = [] := by
  have h1 := (c5_parse_total_empty_on_malformed (fun _ => none)
    (.jstr "not json")).2.2.1 rfl
  have h2 := (c5_parse_total_empty_on_malformed (fun _ => none)
    (.jnum (.num 3))).2.2.2.1 (.jnum (.num 3)) rfl rfl
  exact ⟨h1.1, h1.2, h2.1, h2.2⟩

/-- C6 (amended): the admin-side single-rule validator coerces
percentOff from a number or a numeric string and rejects it only when
the coerced value is not finite, enforcing no range bound, so a finite
out-of-range percentOff yields a parsed rule carrying that value; the
evaluation-side validator additionally rejects any percentOff outside 1
to 80 at parse time. -/
theorem c6_percent_bounds_amended (pv mv dv : JVal) (pl : List JVal)
    (q m : ℚ) (hp : coerceNum pv = .num q) (hm : coerceNum mv = .num m)
    (h2 : 2 ≤ m) :
    Admin.parseRule (.jobj [("percentOff", pv), ("products", .jarr pl),
        ("minQty", mv), ("discountId", dv)]) =
      some ⟨(match dv with | .jstr s => some s | _ => none), q,
        stringEntries pl, m⟩ ∧
    (q < 1 ∨ 80 < q →
      Ext.parseRule (.jobj [("percentOff", pv), ("products", .jarr pl),
        ("minQty", mv), ("discountId", dv)]) = none) := by
  have hgp : JVal.get (.jobj [("percentOff", pv), ("products", .jarr pl),
      ("minQty", mv), ("discountId", dv)]) "percentOff" = pv := rfl
  have hgpr : JVal.get (.jobj [("percentOff", pv), ("products", .jarr pl),
      ("minQty", mv), ("discountId", dv)]) "products" = .jarr pl := rfl
  have hgm : JVal.get (.jobj [("percentOff", pv), ("products", .jarr pl),
      ("minQty", mv), ("discountId", dv)]) "minQty" = mv := rfl
  have hgd : JVal.get (.jobj [("percentOff", pv), ("products", .jarr pl),
      ("minQty", mv), ("discountId", dv)]) "discountId" = dv := rfl
  constructor
  · unfold Admin.parseRule
    rw [hgp, hgpr, hgm, hgd, hp, hm]
    simp [JSNum.toFinite?, JVal.isObjectLike, not_lt.mpr h2]
  · intro hq
    unfold Ext.parseRule
    rw [hgp, hp]
    have : (decide (q < 1) || decide (80 < q)) = true := by
      rcases hq with h | h <;> simp [h]
    simp [JSNum.toFinite?, JVal.isObjectLike, this]

/-- Witness for C6 at concrete inputs: the admin-side validator accepts
the finite out-of-range percentOff values 0, one half, 90 and minus 5,
carrying them into the parsed rule. -/
theorem c6_witness :
    Admin.parseRule (.jobj [("percentOff", .jnum (.num 0)),
        ("products", .jarr [.jstr "P1"]), ("minQty", .jnum (.num 2)),
        ("discountId", .jundefined)]) = some ⟨none, 0, ["P1"], 2⟩ ∧
    Admin.parseRule (.jobj [("percentOff", .jnum (.num (1 / 2))),
        ("products", .jarr [.jstr "P1"]), ("minQty", .jnum (.num 2)),
        ("discountId", .jundefined)]) = some ⟨none, 1 / 2, ["P1"], 2⟩ ∧
    Admin.parseRule (.jobj [("percentOff", .jnum (.num 90)),
        ("products", .jarr [.jstr "P1"]), ("minQty", .jnum (.num 2)),
        ("discountId", .jundefined)]) = some ⟨none, 90, ["P1"], 2⟩ ∧
    Admin.parseRule (.jobj [("percentOff", .jnum (.num (-5))),
        ("products", .jarr [.jstr "P1"]), ("minQty", .jnum (.num 2)),
        ("discountId", .jundefined)]) = some ⟨none, -5, ["P1"], 2⟩ := by
  refine ⟨?_, ?_, ?_, ?_⟩
  · simpa using (c6_percent_bounds_amended (.jnum (.num 0)) (.jnum (.num 2))
      .jundefined [.jstr "P1"] 0 2 rfl rfl (by norm_num)).1
  · simpa using (c6_percent_bounds_amended (.jnum (.num (1 / 2)))
      (.jnum (.num 2)) .jundefined [.jstr "P1"] (1 / 2) 2 rfl rfl
      (by norm_num)).1
  · simpa using (c6_percent_bounds_amended (.jnum (.num 90)) (.jnum (.num 2))
      .jundefined [.jstr "P1"] 90 2 rfl rfl (by norm_num)).1
  · simpa using (c6_percent_bounds_amended (.jnum (.num (-5)))
      (.jnum (.num 2)) .jundefined [.jstr "P1"] (-5) 2 rfl rfl
      (by norm_num)).1

/-- Counterexample for C6 as stated: the evaluation-side single-rule
validator does enforce the 1 to 80 bound, rejecting an otherwise valid
object with the finite percentOff 90 that the admin-side validator
accepts. -/
theorem c6_counterexample :
    Ext.parseRule (.jobj [("percentOff", .jnum (.num 90)),
        ("products", .jarr [.jstr "P1"]),
        ("minQty", .jnum (.num 2))]) = none ∧
    Admin.parseRule (.jobj [("percentOff", .jnum (.num 90)),
        ("products", .jarr [.jstr "P1"]),
        ("minQty", .jnum (.num 2))]) = some ⟨none, 90, ["P1"], 2⟩ := by
  constructor
  · decide
  · decide

/-- C7 (amended): both single-rule validators reject an object whose
products field is not a sequence, and both keep exactly the non-empty
string entries of a products sequence, accepting the rule when at least
one valid entry remains; when no valid entry remains the
evaluation-side validator drops the rule while the admin-side validator
accepts it with an empty product list. -/
theorem c7_products_filter_amended (pv mv : JVal) (pl : List JVal)
    (q m : ℚ) (hp : coerceNum pv = .num q) (hq1 : 1 ≤ q) (hq80 : q ≤ 80)
    (hm : coerceNum mv = .num m) (h2 : 2 ≤ m) :
    (∀ w : JVal, (∀ l, w ≠ .jarr l) →
      Admin.parseRule (.jobj [("percentOff", pv), ("products", w),
        ("minQty", mv)]) = none ∧
      Ext.parseRule (.jobj [("percentOff", pv), ("products", w),
        ("minQty", mv)]) = none) ∧
    (stringEntries pl ≠ [] →
      Ext.parseRule (.jobj [("percentOff", pv), ("products", .jarr pl),
        ("minQty", mv)]) = some ⟨q, stringEntries pl, m⟩ ∧
      Admin.parseRule (.jobj [("percentOff", pv), ("products", .jarr pl),
        ("minQty", mv)]) = some ⟨none, q, stringEntries pl, m⟩) ∧
    (stringEntries pl = [] →
      Ext.parseRule (.jobj [("percentOff", pv), ("products", .jarr pl),
        ("minQty", mv)]) = none ∧
      Admin.parseRule (.jobj [("percentOff", pv), ("products", .jarr pl),
        ("minQty", mv)]) = some ⟨none, q, [], m⟩) := by
  have hbounds : (decide (q < 1) || decide (80 < q)) = false := by
    simp [not_lt.mpr hq1, not_lt.mpr hq80]
  refine ⟨?_, ?_, ?_⟩
  · intro w hw
    have hgp : JVal.get (.jobj [("percentOff", pv), ("products", w),
        ("minQty", mv)]) "percentOff" = pv := rfl
    have hgw : JVal.get (.jobj [("percentOff", pv), ("products", w),
        ("minQty", mv)]) "products" = w := rfl
    constructor
    · unfold Admin.parseRule
      rw [hgp, hgw, hp]
      cases w <;> simp_all [JSNum.toFinite?, JVal.isObjectLike]
    · unfold Ext.parseRule
      rw [hgp, hgw, hp]
      cases w <;> simp_all [JSNum.toFinite?, JVal.isObjectLike]
  · intro hne
    have hgp : JVal.get (.jobj [("percentOff", pv), ("products", .jarr pl),
        ("minQty", mv)]) "percentOff" = pv := rfl
    have hgw : JVal.get (.jobj [("percentOff", pv), ("products", .jarr pl),
        ("minQty", mv)]) "products" = .jarr pl := rfl
    have hgm : JVal.get (.jobj [("percentOff", pv), ("products", .jarr pl),
        ("minQty", mv)]) "minQty" = mv := rfl
    constructor
    · unfold Ext.parseRule
      rw [hgp, hgw, hgm, hp, hm]
      simp [JSNum.toFinite?, JVal.isObjectLike, hbounds, hne, not_lt.mpr h2]
    · unfold Admin.parseRule
      rw [hgp, hgw, hgm, hp, hm]
      simp [JSNum.toFinite?, JVal.isObjectLike, not_lt.mpr h2]
      rfl
  · intro hempty
    have hgp : JVal.get (.jobj [("percentOff", pv), ("products", .jarr pl),
        ("minQty", mv)]) "percentOff" = pv := rfl
    have hgw : JVal.get (.jobj [("percentOff", pv), ("products", .jarr pl),
        ("minQty", mv)]) "products" = .jarr pl := rfl
    have hgm : JVal.get (.jobj [("percentOff", pv), ("products", .jarr pl),
        ("minQty", mv)]) "minQty" = mv := rfl
    constructor
    · unfold Ext.parseRule
      rw [hgp, hgw, hp]
      simp [JSNum.toFinite?, JVal.isObjectLike, hbounds, hempty]
    · unfold Admin.parseRule
      rw [hgp, hgw, hgm, hp, hm]
      simp [JSNum.toFinite?, JVal.isObjectLike, not_lt.mpr h2, hempty]
      rfl

/-- Witness for C7 at concrete inputs: a products value that is a string
rather than a sequence is rejected by both validators, and a products
sequence mixing a valid entry with a numeric entry keeps only the valid
entry and is accepted by both. -/
theorem c7_witness :
    (Admin.parseRule (.jobj [("percentOff", .jnum (.num 10)),
        ("products", .jstr "P1"), ("minQty", .jnum (.num 2))]) = none ∧
      Ext.parseRule (.jobj [("percentOff", .jnum (.num 10)),
        ("products", .jstr "P1"), ("minQty", .jnum (.num 2))]) = none) ∧
    (Ext.parseRule (.jobj [("percentOff", .jnum (.num 10)),
        ("products", .jarr [.jstr "P1", .jnum (.num 5)]),
        ("minQty", .jnum (.num 2))]) = some ⟨10, ["P1"], 2⟩ ∧
      Admin.parseRule (.jobj [("percentOff", .jnum (.num 10)),
        ("products", .jarr [.jstr "P1", .jnum (.num 5)]),
        ("minQty", .jnum (.num 2))]) = some ⟨none, 10, ["P1"], 2⟩) := by
  have h := c7_products_filter_amended (.jnum (.num 10)) (.jnum (.num 2))
    [.jstr "P1", .jnum (.num 5)] 10 2 rfl (by norm_num) (by norm_num) rfl
    (by norm_num)
  constructor
  · exact h.1 (.jstr "P1") (by intro l hl; cases hl)
  · simpa [stringEntries] using h.2.1 (by decide)

/-- Counterexample for C7 as stated: an object whose products sequence
has no valid entry is not dropped by the admin-side validator, which
accepts it with an empty product list (only the evaluation-side
validator drops it). -/
theorem c7_counterexample :
    Admin.parseRule (.jobj [("percentOff", .jnum (.num 10)),
        ("products", .jarr [.jnum (.num 5)]),
        ("minQty", .jnum (.num 2))]) = some ⟨none, 10, [], 2⟩ ∧
    Ext.parseRule (.jobj [("percentOff", .jnum (.num 10)),
        ("products", .jarr [.jnum (.num 5)]),
        ("minQty", .jnum (.num 2))]) = none := by
  constructor
  · decide
  · decide

/-- A JavaScript number has a finite value exactly when it is that
finite number. -/
lemma toFinite_eq_some {n : JSNum} {q : ℚ} :
    n.toFinite? = some q ↔ n = .num q := by
  cases n <;> simp [JSNum.toFinite?]

/-- Inversion for the admin-side validator: an accepted rule carries
the finite coerced minQty of its input, which is at least 2. -/
lemma admin_parseRule_minQty (v : JVal) (r : Admin.DiscountRule)
    (h : Admin.parseRule v = some r) :
    coerceNum (v.get "minQty") = .num r.minQty ∧ 2 ≤ r.minQty := by
  unfold Admin.parseRule at h
  split at h
  · simp at h
  · split at h
    · simp at h
    · split at h
      · split at h
        · simp at h
        · split at h
          · simp at h
          · simp only [Option.some.injEq] at h
            subst h
            refine ⟨toFinite_eq_some.mp ?_, not_lt.mp ?_⟩ <;> assumption
      · simp at h

/-- Inversion for the evaluation-side validator: an accepted rule
carries the finite coerced minQty of its input, which is at least 2. -/
lemma ext_parseRule_minQty (v : JVal) (r : Ext.DiscountRule)
    (h : Ext.parseRule v = some r) :
    coerceNum (v.get "minQty") = .num r.minQty ∧ 2 ≤ r.minQty := by
  unfold Ext.parseRule at h
  split at h
  · simp at h
  · split at h
    · simp at h
    · split at h
      · simp at h
      · split at h
        · split at h
          · simp at h
          · split at h
            · simp at h
            · simp only [Option.ite_none_left_eq_some,
                Option.some.injEq] at h
              obtain ⟨hpe, hr⟩ := h
              subst hr
              refine ⟨toFinite_eq_some.mp ?_, not_lt.mp ?_⟩ <;> assumption
        · simp at h

/-- Every member of an admin rule-set parse is accepted by the
admin-side single-rule validator on some input value. -/
lemma admin_parseRules_mem (jsonParse : String → Option JVal) (raw : JVal)
    (r : Admin.DiscountRule) (h : r ∈ Admin.parseRules jsonParse raw) :
    ∃ v, Admin.parseRule v = some r := by
  rw [admin_parseRules_decoded] at h
  rcases hdec : decodeStep jsonParse raw with _ | v <;> rw [hdec] at h
  · simp at h
  · rcases hobj : v.isObjectLike <;> simp only [hobj] at h
    · simp at h
    · rcases hr : v.get "rules" with _ | _ | _ | _ | _ | l | _ <;>
        simp only [hr] at h
      case jarr =>
        obtain ⟨x, _, hx⟩ := List.mem_filterMap.mp h
        exact ⟨x, hx⟩
      all_goals
        rcases hp : Admin.parseRule v with _ | r' <;> rw [hp] at h <;>
          simp at h
      all_goals subst h; exact ⟨v, hp⟩

/-- Every member of an extension rule-set parse is accepted by the
evaluation-side single-rule validator on some input value. -/
lemma ext_parseRules_mem (jsonParse : String → Option JVal) (raw : JVal)
    (r : Ext.DiscountRule) (h : r ∈ Ext.parseRulesRaw jsonParse raw) :
    ∃ v, Ext.parseRule v = some r := by
  rw [ext_parseRules_decoded] at h
  rcases hdec : decodeStep jsonParse raw with _ | v <;> rw [hdec] at h
  · simp at h
  · rcases hobj : v.isObjectLike <;> simp only [hobj] at h
    · simp at h
    · rcases hr : v.get "rules" with _ | _ | _ | _ | _ | l | _ <;>
        simp only [hr] at h
      case jarr =>
        obtain ⟨x, _, hx⟩ := List.mem_filterMap.mp h
        exact ⟨x, hx⟩
      all_goals
        rcases hp : Ext.parseRule v with _ | r' <;> rw [hp] at h <;>
          simp at h
      all_goals subst h; exact ⟨v, hp⟩

/-- C8: both single-rule validators drop a rule whose coerced minQty is
below 2 or not finite, never clamping it (an accepted rule carries
exactly the coerced value), and consequently no rule with minQty below
2 (in particular minQty 1) ever appears in any parsed result. -/
theorem c8_minqty_reject :
    (∀ v m, coerceNum (v.get "minQty") = .num m → m < 2 →
      Admin.parseRule v = none ∧ Ext.parseRule v = none) ∧
    (∀ v m, coerceNum (v.get "minQty") = .num m →
      (∀ r, Admin.parseRule v = some r → r.minQty = m) ∧
      (∀ r, Ext.parseRule v = some r → r.minQty = m)) ∧
    (∀ v, (∀ q, coerceNum (v.get "minQty") ≠ .num q) →
      Admin.parseRule v = none ∧ Ext.parseRule v = none) ∧
    (∀ jsonParse raw r, r ∈ Admin.parseRules jsonParse raw →
      2 ≤ r.minQty) ∧
    (∀ jsonParse raw r, r ∈ Ext.parseRulesRaw jsonParse raw →
      2 ≤ r.minQty) := by
  have extracta : ∀ v m r, coerceNum (v.get "minQty") = .num m →
      Admin.parseRule v = some r → r.minQty = m := by
    intro v m r hm h
    have := (admin_parseRule_minQty v r h).1
    rw [hm] at this
    exact (JSNum.num.injEq _ _ ▸ this.symm)
  have extracte : ∀ v m r, coerceNum (v.get "minQty") = .num m →
      Ext.parseRule v = some r → r.minQty = m := by
    intro v m r hm h
    have := (ext_parseRule_minQty v r h).1
    rw [hm] at this
    exact (JSNum.num.injEq _ _ ▸ this.symm)
  refine ⟨?_, ?_, ?_, ?_, ?_⟩
  · intro v m hm hlt
    constructor
    · rcases ha : Admin.parseRule v with _ | r
      · rfl
      · have h2 := (admin_parseRule_minQty v r ha).2
        rw [extracta v m r hm ha] at h2
        exact absurd hlt (not_lt.mpr h2)
    · rcases he : Ext.parseRule v with _ | r
      · rfl
      · have h2 := (ext_parseRule_minQty v r he).2
        rw [extracte v m r hm he] at h2
        exact absurd hlt (not_lt.mpr h2)
  · intro v m hm
    exact ⟨fun r => extracta v m r hm, fun r => extracte v m r hm⟩
  · intro v hnofin
    constructor
    · rcases ha : Admin.parseRule v with _ | r
      · rfl
      · exact absurd (admin_parseRule_minQty v r ha).1 (hnofin r.minQty)
    · rcases he : Ext.parseRule v with _ | r
      · rfl
      · exact absurd (ext_parseRule_minQty v r he).1 (hnofin r.minQty)
  · intro jsonParse raw r h
    obtain ⟨v, hv⟩ := admin_parseRules_mem jsonParse raw r h
    exact (admin_parseRule_minQty v r hv).2
  · intro jsonParse raw r h
    obtain ⟨v, hv⟩ := ext_parseRules_mem jsonParse raw r h
    exact (ext_parseRule_minQty v r hv).2

/-- Witness for C8 at a concrete input: an otherwise valid object with
minQty 1 is rejected by both validators. -/
theorem c8_witness :
    Admin.parseRule (.jobj [("percentOff", .jnum (.num 10)),
      ("products", .jarr [.jstr "P1"]),
      ("minQty", .jnum (.num 1))]) = none ∧
    Ext.parseRule (.jobj [("percentOff", .jnum (.num 10)),
      ("products", .jarr [.jstr "P1"]),
      ("minQty", .jnum (.num 1))]) = none :=
  c8_minqty_reject.1 (.jobj [("percentOff", .jnum (.num 10)),
    ("products", .jarr [.jstr "P1"]), ("minQty", .jnum (.num 1))]) 1 rfl
    (by norm_num)

/-- A value accepted by the admin-side validator is object-like. -/
lemma admin_parseRule_objectLike (v : JVal) (r : Admin.DiscountRule)
    (h : Admin.parseRule v = some r) : v.isObjectLike = true := by
  unfold Admin.parseRule at h
  split at h
  · simp at h
  · rename_i hobj
    simpa using hobj

/-- A value accepted by the evaluation-side validator is object-like. -/
lemma ext_parseRule_objectLike (v : JVal) (r : Ext.DiscountRule)
    (h : Ext.parseRule v = some r) : v.isObjectLike = true := by
  unfold Ext.parseRule at h
  split at h
  · simp at h
  · rename_i hobj
    simpa using hobj

/-- The decoding step is the identity on every object-like value (only
strings go through the decoder). -/
lemma decodeStep_of_objectLike (jsonParse : String → Option JVal)
    (v : JVal) (hobj : v.isObjectLike = true) :
    decodeStep jsonParse v = some v := by
  cases v <;> first | rfl | simp [JVal.isObjectLike] at hobj

/-- C9 (amended): for every object the single-rule validator accepts
whose rules field is not an array (for example absent), parsing the
bare legacy object and parsing the same object wrapped in a rules array
both yield the same one-element sequence; an accepted object whose own
rules field is an array instead takes the rules-array path when parsed
bare. -/
theorem c9_legacy_wrapper_amended (jsonParse : String → Option JVal)
    (v : JVal) (hrules : ∀ l, v.get "rules" ≠ .jarr l) :
    (∀ ra, Admin.parseRule v = some ra →
      Admin.parseRules jsonParse v = [ra] ∧
      Admin.parseRules jsonParse (.jobj [("rules", .jarr [v])]) = [ra]) ∧
    (∀ re, Ext.parseRule v = some re →
      Ext.parseRulesRaw jsonParse v = [re] ∧
      Ext.parseRulesRaw jsonParse (.jobj [("rules", .jarr [v])]) = [re]) := by
  constructor
  · intro ra ha
    have hobj := admin_parseRule_objectLike v ra ha
    constructor
    · rw [admin_parseRules_decoded, decodeStep_of_objectLike jsonParse v hobj]
      simp only [hobj, Bool.not_true, if_false]
      rcases hr : v.get "rules" <;>
        first
          | exact absurd hr (hrules _)
          | simp [ha]
    · rw [admin_parseRules_decoded]
      simp [decodeStep, JVal.isObjectLike, JVal.get, List.find?, ha]
  · intro re he
    have hobj := ext_parseRule_objectLike v re he
    constructor
    · rw [ext_parseRules_decoded, decodeStep_of_objectLike jsonParse v hobj]
      simp only [hobj, Bool.not_true, if_false]
      rcases hr : v.get "rules" <;>
        first
          | exact absurd hr (hrules _)
          | simp [he]
    · rw [ext_parseRules_decoded]
      simp [decodeStep, JVal.isObjectLike, JVal.get, List.find?, he]

/-- Witness for C9 at a concrete input: the plain legacy object parses
identically bare and wrapped, on both sides. -/
theorem c9_witness :
    Admin.parseRules (fun _ => none)
      (.jobj [("percentOff", .jnum (.num 10)),
        ("products", .jarr [.jstr "P1"]),
        ("minQty", .jnum (.num 2))]) = [⟨none, 10, ["P1"], 2⟩] ∧
    Admin.parseRules (fun _ => none)
      (.jobj [("rules", .jarr [.jobj [("percentOff", .jnum (.num 10)),
        ("products", .jarr [.jstr "P1"]),
        ("minQty", .jnum (.num 2))]])]) = [⟨none, 10, ["P1"], 2⟩] ∧
    Ext.parseRulesRaw (fun _ => none)
      (.jobj [("percentOff", .jnum (.num 10)),
        ("products", .jarr [.jstr "P1"]),
        ("minQty", .jnum (.num 2))]) = [⟨10, ["P1"], 2⟩] ∧
    Ext.parseRulesRaw (fun _ => none)
      (.jobj [("rules", .jarr [.jobj [("percentOff", .jnum (.num 10)),
        ("products", .jarr [.jstr "P1"]),
        ("minQty", .jnum (.num 2))]])]) = [⟨10, ["P1"], 2⟩] := by
  have h := c9_legacy_wrapper_amended (fun _ => none)
    (.jobj [("percentOff", .jnum (.num 10)),
      ("products", .jarr [.jstr "P1"]), ("minQty", .jnum (.num 2))])
    (by intro l hl; cases hl)
  have ha := h.1 ⟨none, 10, ["P1"], 2⟩ (by decide)
  have he := h.2 ⟨10, ["P1"], 2⟩ (by decide)
  exact ⟨ha.1, ha.2, he.1, he.2⟩

/-- Counterexample for C9 as stated: an accepted object that itself
carries a rules field holding an array parses to the empty sequence
when given bare (the rules-array path wins) but to a one-element
sequence when wrapped, so the two shapes are not always identical. -/
theorem c9_counterexample :
    Admin.parseRule (.jobj [("rules", .jarr []),
      ("percentOff", .jnum (.num 10)),
      ("products", .jarr [.jstr "P1"]),
      ("minQty", .jnum (.num 2))]) = some ⟨none, 10, ["P1"], 2⟩ ∧
    Admin.parseRules (fun _ => none)
      (.jobj [("rules", .jarr []),
        ("percentOff", .jnum (.num 10)),
        ("products", .jarr [.jstr "P1"]),
        ("minQty", .jnum (.num 2))]) = [] ∧
    Admin.parseRules (fun _ => none)
      (.jobj [("rules", .jarr [.jobj [("rules", .jarr []),
        ("percentOff", .jnum (.num 10)),
        ("products", .jarr [.jstr "P1"]),
        ("minQty", .jnum (.num 2))]])]) = [⟨none, 10, ["P1"], 2⟩] := by
  refine ⟨?_, ?_, ?_⟩ <;> decide

/-- C10: an object whose percentOff is the empty string (which the
Number coercion turns into the finite value 0) is accepted by the
admin-side validator with percentOff 0, while the evaluation-side
validator rejects the very same object because 0 is below its 1 to 80
bound. -/
theorem c10_empty_string_percent :
    jsNumber "" = .num 0 ∧
    Admin.parseRule (.jobj [("percentOff", .jstr ""),
      ("products", .jarr [.jstr "P1"]),
      ("minQty", .jnum (.num 2))]) = some ⟨none, 0, ["P1"], 2⟩ ∧
    Ext.parseRule (.jobj [("percentOff", .jstr ""),
      ("products", .jarr [.jstr "P1"]),
      ("minQty", .jnum (.num 2))]) = none := by
  refine ⟨?_, ?_, ?_⟩ <;> decide

/-- The per-rule skip conditions of the selector loop, read off the
code: the rule is a candidate for a line when the line quantity is not
below minQty and the products list contains the line product. -/
def codeCandidate (pid : String) (qty : ℚ) (r : Ext.DiscountRule) : Bool :=
  !decide (qty < r.minQty) && r.products.contains pid

/-- The candidate predicate as the specification words it: minQty at
most the line quantity, products containing the line product, and
percentOff within 1 to 80 (stated from the spec, for comparison with
the code conditions). -/
def specCandidate (pid : String) (qty : ℚ) (r : Ext.DiscountRule) : Bool :=
  decide (r.minQty ≤ qty) && r.products.contains pid &&
    decide (1 ≤ r.percentOff) && decide (r.percentOff ≤ 80)

/-- The invariant every rule emitted by the extension parser satisfies:
percentOff within 1 to 80, a non-empty product list, and minQty at
least 2. -/
def Ext.DiscountRule.Validated (r : Ext.DiscountRule) : Prop :=
  1 ≤ r.percentOff ∧ r.percentOff ≤ 80 ∧ r.products ≠ [] ∧ 2 ≤ r.minQty

/-- The evaluation-side validator only emits validated rules. -/
lemma ext_parseRule_validated (v : JVal) (r : Ext.DiscountRule)
    (h : Ext.parseRule v = some r) : Ext.DiscountRule.Validated r := by
  unfold Ext.parseRule at h
  split at h
  · simp at h
  · split at h
    · simp at h
    · split at h
      · simp at h
      · split at h
        · split at h
          · simp at h
          · split at h
            · simp at h
            · simp only [Option.ite_none_left_eq_some, Option.some.injEq] at h
              obtain ⟨hpe, hr⟩ := h
              subst hr
              rename_i x1 pOff hp hbnd x2 plist hpl x3 mq hmq hlt
              simp only [Bool.or_eq_true, decide_eq_true_eq, not_or,
                not_lt] at hbnd
              exact ⟨hbnd.1, hbnd.2, hpe, not_lt.mp hlt⟩
        · simp at h

/-- The running maximum update of the selector loop is the binary
maximum. -/
lemma if_lt_max (a b : ℚ) : (if a < b then b else a) = max a b := by
  rcases lt_or_ge a b with h | h
  · rw [if_pos h, max_eq_right h.le]
  · rw [if_neg (not_lt.mpr h), max_eq_left h]

/-- The selector fold over the rules equals a maximum fold over the
percentOff values of the rules passing the code candidate filter. -/
lemma bestPercent_aux (pid : String) (qty : ℚ)
    (rules : List Ext.DiscountRule) :
    ∀ acc : ℚ,
      rules.foldl (fun bestPercent r =>
        if qty < r.minQty then bestPercent
        else if !(r.products.contains pid) then bestPercent
        else if bestPercent < r.percentOff then r.percentOff
        else bestPercent) acc =
      ((rules.filter (codeCandidate pid qty)).map
        Ext.DiscountRule.percentOff).foldl max acc := by
  induction rules with
  | nil => intro acc; rfl
  | cons r rs ih =>
    intro acc
    rw [List.foldl_cons, List.filter_cons]
    by_cases h1 : qty < r.minQty
    · rw [if_pos h1]
      have hc : codeCandidate pid qty r = false := by
        unfold codeCandidate
        rw [decide_eq_true h1]
        rfl
      rw [hc]
      simp only [Bool.false_eq_true, if_false]
      exact ih acc
    · rw [if_neg h1]
      by_cases h2 : r.products.contains pid
      · have hc : codeCandidate pid qty r = true := by
          unfold codeCandidate
          rw [h2, decide_eq_false h1]
          rfl
        rw [hc, if_pos rfl]
        simp only [h2, Bool.not_true, Bool.false_eq_true, if_false]
        rw [if_lt_max, List.map_cons, List.foldl_cons,
          ih (max acc r.percentOff)]
      · rw [Bool.not_eq_true] at h2
        have hc : codeCandidate pid qty r = false := by
          unfold codeCandidate
          rw [h2, Bool.and_false]
        rw [hc]
        simp only [h2, Bool.not_false, if_true, Bool.false_eq_true, if_false]
        exact ih acc

/-- bestPercentFor in terms of the code candidate filter. -/
lemma bestPercentFor_eq (pid : String) (qty : ℚ)
    (rules : List Ext.DiscountRule) :
    Ext.bestPercentFor rules pid qty =
      ((rules.filter (codeCandidate pid qty)).map
        Ext.DiscountRule.percentOff).foldl max 0 :=
  bestPercent_aux pid qty rules 0

/-- A maximum fold is the optional list maximum combined with the
start value. -/
lemma foldl_max_elim (l : List ℚ) :
    ∀ a : ℚ, l.foldl max a = l.max?.elim a (max a) := by
  induction l with
  | nil => intro a; rfl
  | cons x xs ih =>
    intro a
    rw [List.foldl_cons, ih (max a x), List.max?_cons]
    cases hx : xs.max? with
    | none => simp
    | some m => simp [max_assoc]

/-- On validated rules the code candidate filter and the
specification-worded candidate filter agree. -/
lemma cand_congr (pid : String) (qty : ℚ) (rules : List Ext.DiscountRule)
    (hval : ∀ r ∈ rules, Ext.DiscountRule.Validated r) :
    rules.filter (codeCandidate pid qty) =
      rules.filter (specCandidate pid qty) := by
  apply List.filter_congr
  intro r hr
  obtain ⟨hq1, h80, _, _⟩ := hval r hr
  unfold codeCandidate specCandidate
  rw [decide_eq_true hq1, decide_eq_true h80, Bool.and_true, Bool.and_true]
  by_cases hle : r.minQty ≤ qty
  · rw [decide_eq_true hle, decide_eq_false (not_lt.mpr hle)]
    rfl
  · rw [decide_eq_false hle, decide_eq_true (not_le.mp hle)]
    simp

/-- The selector on a single line with product merchandise: nothing
when the best percent is zero, otherwise one candidate carrying the
best percent. -/
lemma selectDiscounts_singleton (rules : List Ext.DiscountRule)
    (line : Ext.CartLine) (pid : String)
    (hpid : line.productId = some pid) :
    Ext.selectDiscounts rules [line] =
      if Ext.bestPercentFor rules pid line.quantity = 0 then []
      else [⟨line.id, Ext.bestPercentFor rules pid line.quantity⟩] := by
  unfold Ext.selectDiscounts Ext.linePercentMap Ext.eligibleLine
    Ext.mapGet? Ext.mapSet
  simp only [List.filter_cons, List.filter_nil, List.foldl_cons,
    List.foldl_nil, hpid]
  by_cases hb : Ext.bestPercentFor rules pid line.quantity = 0
  · simp [hb]
  · simp [hb, List.find?]

/-- C1: over validated rules, the selector on a line with product
merchandise emits exactly the maximum percentOff among the rules
passing the specification candidate filter (minQty at most the
quantity, product contained, percentOff within 1 to 80), and emits
nothing when no rule passes. -/
theorem c1_selector_emits_max (rules : List Ext.DiscountRule)
    (line : Ext.CartLine) (pid : String)
    (hval : ∀ r ∈ rules, Ext.DiscountRule.Validated r)
    (hpid : line.productId = some pid) :
    Ext.selectDiscounts rules [line] =
      match ((rules.filter (specCandidate pid line.quantity)).map
          Ext.DiscountRule.percentOff).max? with
      | none => []
      | some m => [⟨line.id, m⟩] := by
  rw [selectDiscounts_singleton rules line pid hpid, bestPercentFor_eq,
    cand_congr pid line.quantity rules hval, foldl_max_elim]
  cases hm : ((rules.filter (specCandidate pid line.quantity)).map
      Ext.DiscountRule.percentOff).max? with
  | none => simp
  | some m =>
    have hmem : m ∈ (rules.filter (specCandidate pid line.quantity)).map
        Ext.DiscountRule.percentOff :=
      List.max?_mem (fun a b => max_choice a b) hm
    obtain ⟨r, hrf, hrm⟩ := List.mem_map.mp hmem
    have hrr : r ∈ rules := (List.mem_filter.mp hrf).1
    obtain ⟨hq1, _, _, _⟩ := hval r hrr
    have h1m : (1 : ℚ) ≤ m := hrm ▸ hq1
    have hmax : max 0 m = m := max_eq_right (le_trans zero_le_one h1m)
    have hne : m ≠ 0 := by
      intro h
      rw [h] at h1m
      norm_num at h1m
    simp [hmax, hne]

/-- Witness for C1 at the overlapping rules of the claim: rule A with
10 percent from quantity 2 and rule B with 25 percent from quantity 3,
on a P1 line of quantity 3, 2 and 1 respectively. -/
theorem c1_witness :
    Ext.selectDiscounts [⟨10, ["P1"], 2⟩, ⟨25, ["P1"], 3⟩]
      [⟨"L1", 3, .product "P1"⟩] = [⟨"L1", 25⟩] ∧
    Ext.selectDiscounts [⟨10, ["P1"], 2⟩, ⟨25, ["P1"], 3⟩]
      [⟨"L1", 2, .product "P1"⟩] = [⟨"L1", 10⟩] ∧
    Ext.selectDiscounts [⟨10, ["P1"], 2⟩, ⟨25, ["P1"], 3⟩]
      [⟨"L1", 1, .product "P1"⟩] = [] := by
  refine ⟨?_, ?_, ?_⟩
  · exact (c1_selector_emits_max [⟨10, ["P1"], 2⟩, ⟨25, ["P1"], 3⟩]
      ⟨"L1", 3, .product "P1"⟩ "P1" (by simp only [Ext.DiscountRule.Validated]; decide) rfl).trans
      (by decide)
  · exact (c1_selector_emits_max [⟨10, ["P1"], 2⟩, ⟨25, ["P1"], 3⟩]
      ⟨"L1", 2, .product "P1"⟩ "P1" (by simp only [Ext.DiscountRule.Validated]; decide) rfl).trans
      (by decide)
  · exact (c1_selector_emits_max [⟨10, ["P1"], 2⟩, ⟨25, ["P1"], 3⟩]
      ⟨"L1", 1, .product "P1"⟩ "P1" (by simp only [Ext.DiscountRule.Validated]; decide) rfl).trans
      (by decide)
